import Mathlib

/-!
Formal model of the hubness-aware nearest-neighbor regression core
(file `hubness/neighbors/regression.py` and the Mutual Proximity
reduction), shallowly embedded in Lean 4.

Distances and target values are modelled as rationals; machine floats
carry no rounding-relevant content in the verified claims.  A float
"NaN" is modelled as `none` in `Option ℚ`.  Matrices are lists of row
lists; a chunk of pairwise distances is a `List (List ℚ)`.
-/

namespace SkHubness

/-! Neighbor Selector: `RadiusNeighborsRegressor._kneighbors_reduce_func`

The source reduces one chunk of distances via
`np.argpartition(dist, n_neighbors - 1)[:, :n_neighbors]`, re-sorts the
selected indices ascending by their distance value with `np.argsort`,
and finally (when distances are requested) applies `np.sqrt` exactly
when `self.effective_metric_ == "euclidean"`.
-/

/-- Sort a list of column indices ascending by their distance value in
`row` (an out-of-range index reads as 0, which never happens on the
in-range index lists the code produces).  Stable insertion sort: ties
keep their input order, which is one concrete realisation of the
implementation-defined tie order of `np.argpartition` and `np.argsort`. -/
def sortIdx (row : List ℚ) (l : List Nat) : List Nat :=
  List.insertionSort (fun i j => row.getD i 0 ≤ row.getD j 0) l

/-- Model of `np.argpartition(row, kth)`: it returns a permutation of
the index range `[0, len)` whose first `kth + 1` positions hold the
smallest entries (tie order implementation-defined); a full stable sort
of the index range is one valid such permutation, and the claims treat
the tie order as unspecified. -/
def argpartitionIdx (row : List ℚ) : List Nat :=
  sortIdx row (List.range row.length)

/-- Computation of `neigh_ind` in `_kneighbors_reduce_func` on one row: partition,
keep the first `n_neighbors` indices, then re-sort them ascending by
distance, as in
`neigh_ind[sample_range, np.argsort(dist[sample_range, neigh_ind])]`. -/
def kReduceInd (row : List ℚ) (n : Nat) : List Nat :=
  sortIdx row ((argpartitionIdx row).take n)

/-- The distance values `dist[sample_range, neigh_ind]` gathered at the
selected indices, before the metric-dependent final transform. -/
def kReduceDistQ (row : List ℚ) (n : Nat) : List ℚ :=
  (kReduceInd row n).map (fun i => row.getD i 0)

/-- Final reported distances of `_kneighbors_reduce_func`: square root
iff `effective_metric_ == "euclidean"` (the internal values are squared
euclidean distances there), unchanged for every other metric.  Exact
real square root is noncomputable in Lean, hence this one definition is
noncomputable; the index computation it builds on stays executable. -/
noncomputable def kReduceDistMetric (metric : String) (row : List ℚ) (n : Nat) : List ℝ :=
  if metric = "euclidean" then
    (kReduceInd row n).map (fun i => Real.sqrt ((row.getD i 0 : ℚ) : ℝ))
  else
    (kReduceInd row n).map (fun i => ((row.getD i 0 : ℚ) : ℝ))

/-- Chunk-level `_kneighbors_reduce_func` (the metric post-transform of
`kReduceDistMetric` kept separate): distances are returned only when
`return_distance` is set, indices always. -/
def kneighborsReduceFunc (dist : List (List ℚ)) (n : Nat) (returnDistance : Bool) :
    Option (List (List ℚ)) × List (List Nat) :=
  if returnDistance then
    (some (dist.map (fun row => kReduceDistQ row n)), dist.map (fun row => kReduceInd row n))
  else
    (none, dist.map (fun row => kReduceInd row n))

/-- Reference procedure, written from the words of the spec for the
refinement claim: fully sort the row ascending and take the first
`n_neighbors` entries. -/
def specKSmallestSorted (row : List ℚ) (n : Nat) : List ℚ :=
  (List.insertionSort (fun a b => a ≤ b) row).take n

/-! Model of `KNeighborsRegressor.predict` -/

/-- Arithmetic mean as computed by `np.mean` on a list of rationals. -/
def meanQ (l : List ℚ) : ℚ := l.sum / (l.length : ℚ)

/-- Number of output dimensions: the column count of the (2-d reshaped)
training target matrix `_y`, that is the length of `_y[0]`. -/
def numOutputs {α : Type} (ytrain : List (List α)) : Nat := (ytrain.headD []).length

/-- The `weights is None` branch of `KNeighborsRegressor.predict`:
`y_pred = np.mean(_y[neigh_ind], axis=1)` — per query row, the
unweighted per-column mean of the target rows at the neighbor indices. -/
def kPredictUniform (ytrain : List (List ℚ)) (neighInd : List (List Nat)) : List (List ℚ) :=
  neighInd.map (fun inds =>
    (List.range (numOutputs ytrain)).map (fun j =>
      meanQ (inds.map (fun i => (ytrain.getD i []).getD j 0))))

/-- Modelled from the spec: one row of the weight matrix produced by
`_get_weights(neigh_dist, "distance")`.  `_get_weights` comes from
`.base`, which is not among the available source files; spec section
4.5 describes inverse-distance weights with a dedicated exact-match
short-circuit for zero distances: a row containing a zero distance gets
indicator weights (weight 1 exactly on the zero-distance entries and 0
elsewhere), every other row gets elementwise inverse distances. -/
def inverseRow (row : List ℚ) : List ℚ :=
  if row.any (fun dv => dv = 0) then row.map (fun dv => if dv = 0 then (1 : ℚ) else 0)
  else row.map (fun dv => 1 / dv)

/-- Modelled from the spec: `_get_weights(neigh_dist, weights)` of
`.base` (not among the available source files).  Uniform weighting (the
default) yields no weight array (`None` in the source, `none` here);
distance weighting yields the inverse-distance rows of `inverseRow`. -/
def getWeights (neighDist : List (List ℚ)) (weights : String) : Option (List (List ℚ)) :=
  if weights = "distance" then some (neighDist.map inverseRow) else none

/-- The weighted branch of `KNeighborsRegressor.predict`: per query row
and output column `j`, `num / denom` with
`num = sum(_y[neigh_ind, j] * weights, axis=1)` and
`denom = np.sum(weights, axis=1)`. -/
def kPredictWeighted (ytrain : List (List ℚ)) (neighInd : List (List Nat))
    (w : List (List ℚ)) : List (List ℚ) :=
  List.zipWith (fun inds wrow =>
    (List.range (numOutputs ytrain)).map (fun j =>
      (List.zipWith (fun i wi => (ytrain.getD i []).getD j 0 * wi) inds wrow).sum / wrow.sum))
    neighInd w

/-- Body of `KNeighborsRegressor.predict` after the kneighbors query, on the
2-d reshaped `_y`: branch on the weight array exactly as the source
branches on `weights is None`. -/
def kPredict (weights : String) (ytrain : List (List ℚ)) (neighDist : List (List ℚ))
    (neighInd : List (List Nat)) : List (List ℚ) :=
  match getWeights neighDist weights with
  | none => kPredictUniform ytrain neighInd
  | some w => kPredictWeighted ytrain neighInd w

/-- Flattening `np.ravel` of an n-by-1 matrix, applied by `predict` when the
fitted `_y` was 1-dimensional. -/
def ravel1 (m : List (List ℚ)) : List ℚ := m.map (fun r => r.getD 0 0)

/-- Squared euclidean distance between two feature vectors. -/
def sqeuclidean (a b : List ℚ) : ℚ := (List.zipWith (fun x y => (x - y) * (x - y)) a b).sum

/-- Modelled from the spec: the `query` contract of spec section 4.4
for the kneighbors call issued by `predict` (the `KNeighborsMixin`
implementation lives in `.base`, not among the available source files):
return the indices of the `n` smallest distances to the reference set,
ascending.  Realised with the in-source reduce function `kReduceInd`
applied to the row of (squared euclidean) distances. -/
def kneighborsModel (Xtrain : List (List ℚ)) (q : List ℚ) (n : Nat) : List Nat :=
  kReduceInd (Xtrain.map (fun x => sqeuclidean q x)) n

/-! Model of `RadiusNeighborsRegressor.predict`

Float NaN is modelled as `none : Option ℚ`; NaN propagates through
sums and means exactly as in IEEE arithmetic (any NaN summand makes
the result NaN).  The model covers the uniform-weights branch
(`weights is None`), which is the path the radius claims exercise; the
empty-neighborhood guard `if len(ind) else empty_obs` is shared
verbatim by both branches of the source. -/

/-- NaN-propagating sum of a list of float values. -/
def fsum (l : List (Option ℚ)) : Option ℚ :=
  l.foldr (fun a b =>
    match a, b with
    | some x, some y => some (x + y)
    | _, _ => none) (some 0)

/-- NaN-propagating `np.mean`. -/
def fmean (l : List (Option ℚ)) : Option ℚ :=
  match fsum l with
  | some s => some (s / (l.length : ℚ))
  | none => none

/-- Value `empty_obs = np.full_like(_y[0], np.nan)`: an all-NaN prediction
row, one entry per output dimension. -/
def emptyObs (d : Nat) : List (Option ℚ) := List.replicate d none

/-- The prediction rows assembled by `RadiusNeighborsRegressor.predict`
(uniform branch): per query row, the per-column mean of the target rows
at the neighbor indices, or `empty_obs` when the neighborhood is empty. -/
def radiusPredictRows (ytrain : List (List (Option ℚ))) (neighInd : List (List Nat)) :
    List (List (Option ℚ)) :=
  neighInd.map (fun inds =>
    if inds.isEmpty then emptyObs (numOutputs ytrain)
    else (List.range (numOutputs ytrain)).map (fun j =>
      fmean (inds.map (fun i => (ytrain.getD i []).getD j (some 0)))))

/-- Number of warnings emitted by `RadiusNeighborsRegressor.predict`:
the source emits a single aggregate warning after assembling the whole
batch, guarded by `if np.max(np.isnan(y_pred))`, so the count is 1 when
the assembled predictions contain at least one NaN and 0 otherwise. -/
def radiusWarnings (preds : List (List (Option ℚ))) : Nat :=
  if preds.any (fun row => row.any (fun v => v.isNone)) then 1 else 0

/-- Whole of `RadiusNeighborsRegressor.predict` (uniform branch): the assembled
predictions together with the number of emitted warnings. -/
def radiusPredict (ytrain : List (List (Option ℚ))) (neighInd : List (List Nat)) :
    List (List (Option ℚ)) × Nat :=
  (radiusPredictRows ytrain neighInd, radiusWarnings (radiusPredictRows ytrain neighInd))

/-! Input validation at the top of `predict` -/

/-- The validation at the top of `KNeighborsRegressor.predict`: sparse
input combined with `metric == "precomputed"` raises `ValueError`
before the kneighbors query runs. -/
def kPredictGuard (xIsSparse : Bool) (metric : String) : Except String Unit :=
  if xIsSparse = true ∧ metric = "precomputed" then
    Except.error "Sparse matrices not supported for prediction with precomputed kernels. Densify your matrix."
  else Except.ok ()

/-- The validation at the top of `RadiusNeighborsRegressor.predict`:
the source contains no sparse/precomputed rejection there; the only
validation is `check_array(X, accept_sparse=csr)`, which accepts sparse
input for every metric, so as a function of sparseness and metric the
guard always passes. -/
def radiusPredictGuard (_xIsSparse : Bool) (_metric : String) : Except String Unit :=
  Except.ok ()

/-- Staging of `KNeighborsRegressor.predict`: the guard runs first and the
downstream neighbor retrieval and averaging (abstracted as the value it
would produce) is reached only when the guard passes. -/
def kPredictRun (xIsSparse : Bool) (metric : String) (downstream : List ℚ) :
    Except String (List ℚ) :=
  match kPredictGuard xIsSparse metric with
  | Except.error e => Except.error e
  | Except.ok _ => Except.ok downstream

/-! Mutual Proximity fit-time validation -/

/-- The method values `MutualProximity.fit` accepts, per the test file
`hubness/reduction/tests/test_mutual_proximity.py` (ALLOWED_METHODS). -/
def mpAllowedMethods : List String := ["exact", "empiric", "normal", "gaussi"]

/-- Modelled from the spec: the fitted state of a `MutualProximity`
reducer (source file `reduction/mutual_proximity.py` is not among the
available source files): the validated method together with the
reference distance and index matrices recorded at fit time (the Hubness
Statistics of spec section 3 derive from these). -/
structure MPModel where
  method : String
  refDist : List (List ℚ)
  refInd : List (List Nat)

/-- Modelled from the spec: `MutualProximity.fit` (source file not
among the available source files; behavior fixed by spec sections 4.1
and 7 and by `test_invalid_method`): a method outside the allowed set —
including an explicitly passed `None` — raises `ValueError` at fit
time, for every input matrix; a valid method yields the fitted model. -/
def mpFit (method : Option String) (neighDist : List (List ℚ)) (neighInd : List (List Nat)) :
    Except String MPModel :=
  match method with
  | some m =>
    if m ∈ mpAllowedMethods then Except.ok ⟨m, neighDist, neighInd⟩
    else Except.error "Mutual proximity method not recognized."
  | none => Except.error "Mutual proximity method not recognized."

end SkHubness

namespace SkHubness

/-! Lemmas about the Neighbor Selector -/

theorem map_orderedInsert_key (row : List ℚ) (a : Nat) (l : List Nat) :
    (List.orderedInsert (fun i j => row.getD i 0 ≤ row.getD j 0) a l).map
        (fun i => row.getD i 0)
      = List.orderedInsert (fun x y => x ≤ y) (row.getD a 0)
          (l.map (fun i => row.getD i 0)) := by
  induction l with
  | nil => rfl
  | cons b l ih =>
    simp only [List.orderedInsert, List.map]
    split_ifs with h
    · simp only [List.map_cons]
    · simp only [List.map_cons]
      rw [ih]

theorem map_sortIdx (row : List ℚ) (l : List Nat) :
    (sortIdx row l).map (fun i => row.getD i 0)
      = List.insertionSort (fun x y => x ≤ y) (l.map (fun i => row.getD i 0)) := by
  induction l with
  | nil => rfl
  | cons a l ih =>
    simp only [sortIdx, List.insertionSort, List.map] at *
    rw [map_orderedInsert_key, ih]

theorem map_getD_range (row : List ℚ) :
    (List.range row.length).map (fun i => row.getD i 0) = row := by
  apply List.ext_getElem
  · simp
  · intro i h1 h2
    simp only [List.getElem_map, List.getElem_range]
    exact List.getD_eq_getElem row 0 h2

theorem kReduceDistQ_eq_take_sort (row : List ℚ) (n : Nat) :
    kReduceDistQ row n = (List.insertionSort (fun a b => a ≤ b) row).take n := by
  have hpart : (argpartitionIdx row).map (fun i => row.getD i 0)
      = List.insertionSort (fun a b => a ≤ b) row := by
    rw [argpartitionIdx, map_sortIdx, map_getD_range]
  have hsorted :
      List.Sorted (fun a b : ℚ => a ≤ b)
        ((List.insertionSort (fun a b => a ≤ b) row).take n) :=
    List.Pairwise.sublist (List.take_sublist n _)
      (List.sorted_insertionSort (fun a b => a ≤ b) row)
  calc kReduceDistQ row n
      = List.insertionSort (fun x y => x ≤ y)
          (((argpartitionIdx row).take n).map (fun i => row.getD i 0)) := by
        rw [kReduceDistQ, kReduceInd, map_sortIdx]
    _ = List.insertionSort (fun x y => x ≤ y)
          (((argpartitionIdx row).map (fun i => row.getD i 0)).take n) := by
        rw [List.map_take]
    _ = List.insertionSort (fun x y => x ≤ y)
          ((List.insertionSort (fun a b => a ≤ b) row).take n) := by
        rw [hpart]
    _ = (List.insertionSort (fun a b => a ≤ b) row).take n :=
        List.Sorted.insertionSort_eq hsorted

theorem mem_kReduceInd_lt (row : List ℚ) (n : Nat) :
    ∀ i ∈ kReduceInd row n, i < row.length := by
  intro i hi
  have h1 : i ∈ (argpartitionIdx row).take n := by
    simpa [kReduceInd, sortIdx] using hi
  have h2 : i ∈ argpartitionIdx row := List.take_subset n _ h1
  have h3 : i ∈ List.range row.length := by
    simpa [argpartitionIdx, sortIdx] using h2
  simpa using h3

theorem kReduceDistQ_nonneg (row : List ℚ) (n : Nat) (h : ∀ x ∈ row, 0 ≤ x) :
    ∀ dv ∈ kReduceDistQ row n, 0 ≤ dv := by
  intro dv hdv
  rcases List.mem_map.1 hdv with ⟨i, hi, rfl⟩
  have hlt := mem_kReduceInd_lt row n i hi
  have hmem : row.getD i 0 ∈ row := by
    rw [List.getD_eq_getElem row 0 hlt]
    exact List.getElem_mem hlt
  exact h _ hmem

/-! Claim theorems for the Neighbor Selector -/

/-- C4: for every distance-chunk row and every `n_neighbors` not exceeding
the row length, the two-phase partial-partition-then-sort procedure of
`_kneighbors_reduce_func` returns the same result as the reference
procedure that fully sorts the row ascending and takes the first
`n_neighbors` entries: the per-row distance sequence equals the
`n_neighbors` smallest distances of the row in ascending order. -/
theorem kreduce_refines_full_sort (row : List ℚ) (n : Nat) (hn : n ≤ row.length) :
    kReduceDistQ row n = specKSmallestSorted row n := by
  rw [specKSmallestSorted]
  exact kReduceDistQ_eq_take_sort row n

theorem kreduce_refines_full_sort_witness :
    2 ≤ ([3, 1, 2] : List ℚ).length ∧
      kReduceDistQ [3, 1, 2] 2 = specKSmallestSorted [3, 1, 2] 2 :=
  ⟨by decide, kreduce_refines_full_sort [3, 1, 2] 2 (by decide)⟩

/-- C5: in `_kneighbors_reduce_func` with distances returned, when the
effective metric is "euclidean" every reported distance is the square root
of the corresponding selected entry of the input chunk row, and for every
other metric the reported distances equal the selected entries unchanged. -/
theorem kreduce_metric_sqrt_transform (metric : String) (row : List ℚ) (n j : Nat)
    (hj : j < (kReduceInd row n).length) :
    (metric = "euclidean" →
      (kReduceDistMetric metric row n).getD j 0
        = Real.sqrt ((row.getD ((kReduceInd row n).getD j 0) 0 : ℚ) : ℝ)) ∧
    (metric ≠ "euclidean" →
      (kReduceDistMetric metric row n).getD j 0
        = ((row.getD ((kReduceInd row n).getD j 0) 0 : ℚ) : ℝ)) := by
  constructor
  · intro hm
    rw [kReduceDistMetric, if_pos hm,
      List.getD_eq_getElem _ 0 (by simpa using hj), List.getElem_map,
      List.getD_eq_getElem _ 0 hj]
  · intro hm
    rw [kReduceDistMetric, if_neg (by simpa using hm),
      List.getD_eq_getElem _ 0 (by simpa using hj), List.getElem_map,
      List.getD_eq_getElem _ 0 hj]

theorem kreduce_metric_sqrt_transform_witness :
    0 < (kReduceInd [(0 : ℚ), 4] 1).length ∧
      (("euclidean" = "euclidean" →
        (kReduceDistMetric "euclidean" [(0 : ℚ), 4] 1).getD 0 0
          = Real.sqrt ((([(0 : ℚ), 4].getD ((kReduceInd [(0 : ℚ), 4] 1).getD 0 0) 0 : ℚ) : ℝ))) ∧
      ("euclidean" ≠ "euclidean" →
        (kReduceDistMetric "euclidean" [(0 : ℚ), 4] 1).getD 0 0
          = ((([(0 : ℚ), 4].getD ((kReduceInd [(0 : ℚ), 4] 1).getD 0 0) 0 : ℚ) : ℝ)))) :=
  ⟨by decide, kreduce_metric_sqrt_transform "euclidean" [(0 : ℚ), 4] 1 0 (by decide)⟩

/-- C8: the reduce function is deterministic: two runs on the same distance
chunk, the same `n_neighbors` and the same `return_distance` flag produce
identical output, including the choice among candidates at tied distances
(pinned concretely for a row with two candidates at identical distance:
the model selects index 0). -/
theorem kreduce_deterministic (d₁ d₂ : List (List ℚ)) (n₁ n₂ : Nat) (r₁ r₂ : Bool)
    (hd : d₁ = d₂) (hn : n₁ = n₂) (hr : r₁ = r₂) :
    kneighborsReduceFunc d₁ n₁ r₁ = kneighborsReduceFunc d₂ n₂ r₂ ∧
      kneighborsReduceFunc [[(1 : ℚ), 1]] 1 true = (some [[1]], [[0]]) := by
  subst hd; subst hn; subst hr
  exact ⟨rfl, by decide⟩

theorem kreduce_deterministic_witness :
    ([[(1 : ℚ), 1]] = [[(1 : ℚ), 1]]) ∧ (1 = 1) ∧ (true = true) ∧
      (kneighborsReduceFunc [[(1 : ℚ), 1]] 1 true
          = kneighborsReduceFunc [[(1 : ℚ), 1]] 1 true ∧
        kneighborsReduceFunc [[(1 : ℚ), 1]] 1 true = (some [[1]], [[0]])) :=
  ⟨rfl, rfl, rfl, kreduce_deterministic _ _ _ _ _ _ rfl rfl rfl⟩

/-- C9: for every distance chunk whose rows have length `N` and every
`n_neighbors`, all neighbor indices returned by the reduce function lie
strictly within `[0, N)`, and the returned distances are non-negative
whenever the input distances are non-negative. -/
theorem kreduce_inbounds_and_nonneg (dist : List (List ℚ)) (n N : Nat)
    (hrect : ∀ row ∈ dist, row.length = N)
    (hnn : ∀ row ∈ dist, ∀ x ∈ row, 0 ≤ x) :
    (∀ indRow ∈ (kneighborsReduceFunc dist n true).2, ∀ i ∈ indRow, i < N) ∧
      (∀ dRow ∈ ((kneighborsReduceFunc dist n true).1.getD []), ∀ dv ∈ dRow, 0 ≤ dv) := by
  have hsnd : (kneighborsReduceFunc dist n true).2
      = dist.map (fun row => kReduceInd row n) := by
    simp [kneighborsReduceFunc]
  have hfst : (kneighborsReduceFunc dist n true).1.getD []
      = dist.map (fun row => kReduceDistQ row n) := by
    simp [kneighborsReduceFunc]
  constructor
  · intro indRow hr i hi
    rw [hsnd] at hr
    rcases List.mem_map.1 hr with ⟨row, hrow, rfl⟩
    exact hrect row hrow ▸ mem_kReduceInd_lt row n i hi
  · intro dRow hr dv hdv
    rw [hfst] at hr
    rcases List.mem_map.1 hr with ⟨row, hrow, rfl⟩
    exact kReduceDistQ_nonneg row n (hnn row hrow) dv hdv

theorem kreduce_inbounds_and_nonneg_witness :
    (∀ row ∈ [[(1 : ℚ), 2], [0, 3]], row.length = 2) ∧
      (∀ row ∈ [[(1 : ℚ), 2], [0, 3]], ∀ x ∈ row, 0 ≤ x) ∧
      ((∀ indRow ∈ (kneighborsReduceFunc [[(1 : ℚ), 2], [0, 3]] 1 true).2,
          ∀ i ∈ indRow, i < 2) ∧
        (∀ dRow ∈ ((kneighborsReduceFunc [[(1 : ℚ), 2], [0, 3]] 1 true).1.getD []),
          ∀ dv ∈ dRow, 0 ≤ dv)) :=
  ⟨by decide, by decide,
    kreduce_inbounds_and_nonneg [[(1 : ℚ), 2], [0, 3]] 1 2 (by decide) (by decide)⟩

/-! Indexing helpers -/

theorem getD_map_of_lt {α β : Type} (f : α → β) (l : List α) (q : Nat)
    (hq : q < l.length) (d : α) (e : β) :
    (l.map f).getD q e = f (l.getD q d) := by
  rw [List.getD_eq_getElem _ e (by simpa using hq), List.getElem_map,
    List.getD_eq_getElem _ d hq]

theorem getD_range_of_lt (d j : Nat) (hj : j < d) : (List.range d).getD j 0 = j := by
  rw [List.getD_eq_getElem _ 0 (by simpa using hj), List.getElem_range]

theorem getD_zipWith_of_lt {α β γ : Type} (f : α → β → γ) (l₁ : List α) (l₂ : List β)
    (q : Nat) (h₁ : q < l₁.length) (h₂ : q < l₂.length) (d₁ : α) (d₂ : β) (e : γ) :
    (List.zipWith f l₁ l₂).getD q e = f (l₁.getD q d₁) (l₂.getD q d₂) := by
  rw [List.getD_eq_getElem _ e (by simp only [List.length_zipWith]; omega),
    List.getElem_zipWith, List.getD_eq_getElem _ d₁ h₁, List.getD_eq_getElem _ d₂ h₂]

/-! Lemmas about `KNeighborsRegressor.predict` -/

theorem kPredictUniform_entry (ytrain : List (List ℚ)) (neighInd : List (List Nat))
    (q j : Nat) (hq : q < neighInd.length) (hj : j < numOutputs ytrain) :
    ((kPredictUniform ytrain neighInd).getD q []).getD j 0
      = meanQ ((neighInd.getD q []).map (fun i => (ytrain.getD i []).getD j 0)) := by
  rw [kPredictUniform, getD_map_of_lt _ neighInd q hq []]
  rw [getD_map_of_lt _ (List.range (numOutputs ytrain)) j (by simpa using hj) 0]
  rw [getD_range_of_lt _ j hj]

theorem kPredictWeighted_entry (ytrain : List (List ℚ)) (neighInd : List (List Nat))
    (w : List (List ℚ)) (q j : Nat) (hq₁ : q < neighInd.length) (hq₂ : q < w.length)
    (hj : j < numOutputs ytrain) :
    ((kPredictWeighted ytrain neighInd w).getD q []).getD j 0
      = (List.zipWith (fun i wi => (ytrain.getD i []).getD j 0 * wi)
          (neighInd.getD q []) (w.getD q [])).sum / (w.getD q []).sum := by
  rw [kPredictWeighted, getD_zipWith_of_lt _ neighInd w q hq₁ hq₂ [] []]
  rw [getD_map_of_lt _ (List.range (numOutputs ytrain)) j (by simpa using hj) 0]
  rw [getD_range_of_lt _ j hj]

theorem zip_indicator_sum_zero (f : Nat → ℚ) :
    ∀ (il : List Nat) (b : List ℚ), (∀ x ∈ b, x ≠ 0) →
      (List.zipWith (fun i wi => f i * wi)
        il (b.map (fun dv => if dv = 0 then (1 : ℚ) else 0))).sum = 0 := by
  intro il b
  induction b generalizing il with
  | nil => intro _; cases il <;> simp
  | cons x b ih =>
    intro hb
    cases il with
    | nil => simp
    | cons i il =>
      have hx : x ≠ 0 := hb x (by simp)
      simp only [List.map_cons, List.zipWith_cons_cons, List.sum_cons]
      rw [if_neg hx, mul_zero, zero_add]
      exact ih il (fun y hy => hb y (by simp [hy]))

theorem zip_indicator_sum_select (f : Nat → ℚ) :
    ∀ (a : List ℚ) (il : List Nat) (b : List ℚ),
      (∀ x ∈ a, x ≠ 0) → (∀ x ∈ b, x ≠ 0) →
      il.length = a.length + 1 + b.length →
      (List.zipWith (fun i wi => f i * wi)
        il ((a ++ 0 :: b).map (fun dv => if dv = 0 then (1 : ℚ) else 0))).sum
        = f (il.getD a.length 0) := by
  intro a
  induction a with
  | nil =>
    intro il b _ hb hlen
    cases il with
    | nil => simp only [List.length_nil] at hlen; omega
    | cons i il =>
      simp only [List.nil_append, List.map_cons, List.zipWith_cons_cons, List.sum_cons,
        List.length_nil]
      rw [zip_indicator_sum_zero f il b hb]
      simp
  | cons x a ih =>
    intro il b ha hb hlen
    cases il with
    | nil => simp only [List.length_nil] at hlen; omega
    | cons i il =>
      have hx : x ≠ 0 := ha x (by simp)
      simp only [List.cons_append, List.map_cons, List.zipWith_cons_cons, List.sum_cons,
        List.length_cons]
      rw [if_neg hx, mul_zero, zero_add]
      rw [ih il b (fun y hy => ha y (by simp [hy])) hb
        (by simp only [List.length_cons] at hlen; omega)]
      simp [List.getD_cons_succ]

theorem indicator_sum_one (a b : List ℚ) (ha : ∀ x ∈ a, x ≠ 0) (hb : ∀ x ∈ b, x ≠ 0) :
    ((a ++ 0 :: b).map (fun dv => if dv = 0 then (1 : ℚ) else 0)).sum = 1 := by
  rw [List.map_append, List.sum_append, List.map_cons, List.sum_cons, if_pos rfl]
  have h₁ : (a.map (fun dv => if dv = 0 then (1 : ℚ) else 0)).sum = 0 := by
    apply List.sum_eq_zero
    intro y hy
    rcases List.mem_map.1 hy with ⟨x, hx, rfl⟩
    rw [if_neg (ha x hx)]
  have h₂ : (b.map (fun dv => if dv = 0 then (1 : ℚ) else 0)).sum = 0 := by
    apply List.sum_eq_zero
    intro y hy
    rcases List.mem_map.1 hy with ⟨x, hx, rfl⟩
    rw [if_neg (hb x hx)]
  rw [h₁, h₂]
  ring

/-! Claim theorems for regression prediction -/

/-- C1: with `weights="uniform"` the prediction for every query row and
output dimension is the unweighted mean of the fitted target values at the
selected neighbor indices; in particular, on the reference set
X = [[0],[1],[2],[3]], y = [0,0,1,1] with `n_neighbors=2`, predicting on
[[1.5]] yields exactly 0.5. -/
theorem kpredict_uniform_is_mean (ytrain neighDist : List (List ℚ))
    (neighInd : List (List Nat)) (q j : Nat)
    (hq : q < neighInd.length) (hj : j < numOutputs ytrain) :
    (((kPredict "uniform" ytrain neighDist neighInd).getD q []).getD j 0
        = meanQ ((neighInd.getD q []).map (fun i => (ytrain.getD i []).getD j 0))) ∧
      ravel1 (kPredict "uniform" [[0], [0], [1], [1]] []
          [kneighborsModel [[0], [1], [2], [3]] [3 / 2] 2]) = [1 / 2] := by
  constructor
  · have h : kPredict "uniform" ytrain neighDist neighInd
        = kPredictUniform ytrain neighInd := rfl
    rw [h]
    exact kPredictUniform_entry ytrain neighInd q j hq hj
  · have h : kPredict "uniform" [[0], [0], [1], [1]] []
          [kneighborsModel [[0], [1], [2], [3]] [3 / 2] 2]
        = kPredictUniform [[0], [0], [1], [1]]
            [kneighborsModel [[0], [1], [2], [3]] [3 / 2] 2] := rfl
    rw [h]
    norm_num [kneighborsModel, kReduceInd, sortIdx, argpartitionIdx, sqeuclidean,
      List.insertionSort, List.orderedInsert, List.range_succ,
      ravel1, kPredictUniform, meanQ, numOutputs]

theorem kpredict_uniform_is_mean_witness :
    0 < ([[(0 : Nat), 1]] : List (List Nat)).length ∧
      0 < numOutputs [[(0 : ℚ)], [2]] ∧
      ((((kPredict "uniform" [[(0 : ℚ)], [2]] [] [[0, 1]]).getD 0 []).getD 0 0
          = meanQ ((([[(0 : Nat), 1]] : List (List Nat)).getD 0 []).map
              (fun i => (([[(0 : ℚ)], [2]].getD i []).getD 0 0)))) ∧
        ravel1 (kPredict "uniform" [[0], [0], [1], [1]] []
            [kneighborsModel [[0], [1], [2], [3]] [3 / 2] 2]) = [1 / 2]) :=
  ⟨by decide, by decide,
    kpredict_uniform_is_mean [[(0 : ℚ)], [2]] [] [[0, 1]] 0 0 (by decide) (by decide)⟩

/-- C3: with `weights="distance"`, a query row whose neighbor-distance row
contains a single exact zero (an exact match with a reference point) gets
that reference point target values directly: the indicator weights of the
exact-match short-circuit make the weighted average collapse to the target
row at the zero-distance neighbor, and no inverse of a zero distance is
ever formed. -/
theorem kpredict_distance_exact_match (ytrain : List (List ℚ))
    (neighDist : List (List ℚ)) (neighInd : List (List Nat)) (q j : Nat) (a b : List ℚ)
    (hq₁ : q < neighInd.length) (hq₂ : q < neighDist.length)
    (hrow : neighDist.getD q [] = a ++ 0 :: b)
    (ha : ∀ x ∈ a, x ≠ 0) (hb : ∀ x ∈ b, x ≠ 0)
    (hlen : (neighInd.getD q []).length = (neighDist.getD q []).length)
    (hj : j < numOutputs ytrain) :
    ((kPredict "distance" ytrain neighDist neighInd).getD q []).getD j 0
      = (ytrain.getD ((neighInd.getD q []).getD a.length 0) []).getD j 0 := by
  have hkp : kPredict "distance" ytrain neighDist neighInd
      = kPredictWeighted ytrain neighInd (neighDist.map inverseRow) := rfl
  have hwq : (neighDist.map inverseRow).getD q []
      = (a ++ 0 :: b).map (fun dv => if dv = 0 then (1 : ℚ) else 0) := by
    rw [getD_map_of_lt inverseRow neighDist q hq₂ [], hrow, inverseRow,
      if_pos (by simp only [List.any_eq_true]; exact ⟨0, by simp, by simp⟩)]
  have hlen₂ : (neighInd.getD q []).length = a.length + 1 + b.length := by
    rw [hlen, hrow]
    simp only [List.length_append, List.length_cons]
    omega
  rw [hkp,
    kPredictWeighted_entry ytrain neighInd _ q j hq₁ (by simpa using hq₂) hj, hwq,
    zip_indicator_sum_select (fun i => (ytrain.getD i []).getD j 0) a
      (neighInd.getD q []) b ha hb hlen₂,
    indicator_sum_one a b ha hb, div_one]

theorem kpredict_distance_exact_match_witness :
    0 < ([[(0 : Nat), 1]] : List (List Nat)).length ∧
      0 < ([[(0 : ℚ), 1]] : List (List ℚ)).length ∧
      ([[(0 : ℚ), 1]] : List (List ℚ)).getD 0 [] = [] ++ 0 :: [1] ∧
      (∀ x ∈ ([] : List ℚ), x ≠ 0) ∧ (∀ x ∈ [(1 : ℚ)], x ≠ 0) ∧
      (([[(0 : Nat), 1]] : List (List Nat)).getD 0 []).length
        = (([[(0 : ℚ), 1]] : List (List ℚ)).getD 0 []).length ∧
      0 < numOutputs [[(5 : ℚ)], [7]] ∧
      ((kPredict "distance" [[(5 : ℚ)], [7]] [[0, 1]] [[0, 1]]).getD 0 []).getD 0 0
        = ([[(5 : ℚ)], [7]].getD
            ((([[(0 : Nat), 1]] : List (List Nat)).getD 0 []).getD ([] : List ℚ).length 0)
            []).getD 0 0 :=
  ⟨by decide, by decide, by decide, by decide, by decide, by decide, by decide,
    kpredict_distance_exact_match [[(5 : ℚ)], [7]] [[0, 1]] [[0, 1]] 0 0 [] [1]
      (by decide) (by decide) (by decide) (by decide) (by decide) (by decide) (by decide)⟩

/-! Lemmas about `RadiusNeighborsRegressor.predict` -/

theorem radiusPredictRows_length (ytrain : List (List (Option ℚ)))
    (neighInd : List (List Nat)) :
    (radiusPredictRows ytrain neighInd).length = neighInd.length := by
  simp [radiusPredictRows]

theorem radiusPredictRows_of_empty (ytrain : List (List (Option ℚ)))
    (neighInd : List (List Nat)) (q : Nat)
    (hq : q < neighInd.length) (hqe : neighInd.getD q [] = []) :
    (radiusPredictRows ytrain neighInd).getD q [] = emptyObs (numOutputs ytrain) := by
  rw [radiusPredictRows, getD_map_of_lt _ neighInd q hq [], hqe]
  simp

theorem radiusWarnings_eq_one_iff (p : List (List (Option ℚ))) :
    radiusWarnings p = 1 ↔ ∃ row ∈ p, ∃ v ∈ row, v = none := by
  rw [radiusWarnings]
  split_ifs with h
  · simp only [List.any_eq_true, Option.isNone_iff_eq_none] at h
    exact iff_of_true rfl h
  · simp only [List.any_eq_true, Option.isNone_iff_eq_none] at h
    exact iff_of_false (by decide) h

theorem radiusWarnings_le_one (p : List (List (Option ℚ))) : radiusWarnings p ≤ 1 := by
  rw [radiusWarnings]
  split_ifs <;> omega

/-! Claim theorems for radius regression -/

/-- C2: in `RadiusNeighborsRegressor.predict`, every query row with an empty
radius neighborhood yields NaN in every output dimension, the call still
returns one prediction row per query row (no exception for empty
neighborhoods), and a single aggregate warning is emitted for a batch
containing at least one such row — the warning count never exceeds 1, so it
is not one warning per empty row. -/
theorem radius_predict_empty_neighborhood (ytrain : List (List (Option ℚ)))
    (neighInd : List (List Nat)) :
    ((radiusPredict ytrain neighInd).1.length = neighInd.length) ∧
      (∀ q, q < neighInd.length → neighInd.getD q [] = [] →
        (radiusPredict ytrain neighInd).1.getD q [] = emptyObs (numOutputs ytrain)) ∧
      (0 < numOutputs ytrain →
        ∀ q, q < neighInd.length → neighInd.getD q [] = [] →
        (radiusPredict ytrain neighInd).2 = 1) ∧
      ((radiusPredict ytrain neighInd).2 ≤ 1) := by
  refine ⟨radiusPredictRows_length ytrain neighInd, ?_, ?_, radiusWarnings_le_one _⟩
  · intro q hq hqe
    exact radiusPredictRows_of_empty ytrain neighInd q hq hqe
  · intro hd q hq hqe
    apply (radiusWarnings_eq_one_iff _).2
    refine ⟨(radiusPredictRows ytrain neighInd).getD q [], ?_, none, ?_, rfl⟩
    · have hql : q < (radiusPredictRows ytrain neighInd).length := by
        rw [radiusPredictRows_length]; exact hq
      rw [List.getD_eq_getElem _ [] hql]
      exact List.getElem_mem hql
    · rw [radiusPredictRows_of_empty ytrain neighInd q hq hqe, emptyObs]
      exact List.mem_replicate.2 ⟨by omega, rfl⟩

theorem radius_predict_empty_neighborhood_witness :
    ((radiusPredict [[some (1 : ℚ)]] [[], [0]]).1.length = 2) ∧
      ((radiusPredict [[some (1 : ℚ)]] [[], [0]]).1.getD 0 []
        = emptyObs (numOutputs [[some (1 : ℚ)]])) ∧
      ((radiusPredict [[some (1 : ℚ)]] [[], [0]]).2 = 1) ∧
      ((radiusPredict [[some (1 : ℚ)]] [[], [0]]).2 ≤ 1) :=
  ⟨(radius_predict_empty_neighborhood [[some (1 : ℚ)]] [[], [0]]).1,
    (radius_predict_empty_neighborhood [[some (1 : ℚ)]] [[], [0]]).2.1
      0 (by decide) (by decide),
    (radius_predict_empty_neighborhood [[some (1 : ℚ)]] [[], [0]]).2.2.1
      (by decide) 0 (by decide) (by decide),
    (radius_predict_empty_neighborhood [[some (1 : ℚ)]] [[], [0]]).2.2.2⟩

/-- C10: the empty-neighborhood warning of `RadiusNeighborsRegressor.predict`
is emitted iff the assembled prediction array contains at least one NaN, as
the guard is `np.max(np.isnan(y_pred))`; consequently a batch whose
neighborhoods are all non-empty still warns when the fitted targets contain
NaN (concretely: targets [[NaN]] with the single non-empty neighborhood [0]
warn although no neighborhood is empty). -/
theorem radius_warning_iff_nan (ytrain : List (List (Option ℚ)))
    (neighInd : List (List Nat)) :
    ((radiusPredict ytrain neighInd).2 = 1 ↔
      ∃ row ∈ (radiusPredict ytrain neighInd).1, ∃ v ∈ row, v = none) ∧
      ((radiusPredict [[none]] [[0]]).2 = 1 ∧
        (([[(0 : Nat)]] : List (List Nat)).all (fun inds => !inds.isEmpty)) = true) :=
  ⟨radiusWarnings_eq_one_iff (radiusPredictRows ytrain neighInd),
    by decide, by decide⟩

/-! Claim theorems for validation behavior -/

/-- C6: `MutualProximity.fit` raises `ValueError` for every method value
outside the allowed set, including an explicitly passed `None`, for every
input distance/index matrix; the failure is produced by `fit` itself, so it
happens at fit time and is never deferred to transform time. -/
theorem mp_fit_invalid_method (method : Option String) (neighDist : List (List ℚ))
    (neighInd : List (List Nat)) (hm : ∀ s ∈ mpAllowedMethods, method ≠ some s) :
    mpFit method neighDist neighInd
      = Except.error "Mutual proximity method not recognized." := by
  cases method with
  | none => rfl
  | some m =>
    have hnot : m ∉ mpAllowedMethods := fun hmem => hm m hmem rfl
    simp only [mpFit]
    rw [if_neg hnot]

theorem mp_fit_invalid_method_witness :
    (∀ s ∈ mpAllowedMethods, (some "invalid" : Option String) ≠ some s) ∧
      mpFit (some "invalid") [] []
        = Except.error "Mutual proximity method not recognized." :=
  ⟨by decide, mp_fit_invalid_method (some "invalid") [] [] (by decide)⟩

/-- C7 counterexample: the claim quantifies over every regression predict
call, but `RadiusNeighborsRegressor.predict` performs no sparse/precomputed
rejection: its input validation accepts a sparse query matrix when the
metric is "precomputed" instead of raising `ValueError`. -/
theorem radius_predict_accepts_sparse_precomputed :
    radiusPredictGuard true "precomputed" = Except.ok () := rfl

/-- C7 amended: `KNeighborsRegressor.predict` raises `ValueError` exactly
when the query matrix is sparse and the metric is "precomputed", before the
kneighbors retrieval is consulted (so the error is independent of whatever
the downstream neighbor computation would produce), while
`RadiusNeighborsRegressor.predict` performs no such rejection and accepts
sparse input for every metric. -/
theorem kpredict_sparse_precomputed_guard (sp : Bool) (metric : String)
    (downstream₁ downstream₂ : List ℚ) :
    ((∃ e, kPredictGuard sp metric = Except.error e)
        ↔ (sp = true ∧ metric = "precomputed")) ∧
      kPredictRun true "precomputed" downstream₁
        = kPredictRun true "precomputed" downstream₂ ∧
      radiusPredictGuard sp metric = Except.ok () := by
  refine ⟨?_, rfl, rfl⟩
  rw [kPredictGuard]
  split_ifs with h
  · exact iff_of_true ⟨_, rfl⟩ h
  · constructor
    · rintro ⟨e, he⟩
      exact he.elim
    · intro hc
      exact absurd hc h

end SkHubness
